import Mathlib

/-!
Verification of the crane-control serial/MQTT bridge (src/main.cpp).

The development shallowly embeds the bridge firmware: serial bytes are
natural numbers (10 = LF, 13 = CR, 0 = NUL), topics and payload templates
are Lean strings, and each side-effecting routine becomes a pure function
returning the list of externally observable actions it performs.
-/

namespace Crane

/-! ### Configuration constants (src/main.cpp lines 5-19) -/

def WIFI_SSID : String := "portmodel"

def WIFI_PASS : String := "portmodel123"

def MQTT_HOST : String := "192.168.1.2"

def MQTT_PORT : Nat := 1883

/-- Logical crane identity, used to build topic names. -/
def CRANE_ID : String := "crane-1"

/-- Size of the UART line buffer, `LINE_BUF` in the source. -/
def LINE_BUF : Nat := 256

/-! ### Topic derivation (setupTopics, src/main.cpp lines 120-125)

The source builds the three topic strings from the configured identity
constant; we keep the identity as a parameter so the derivation can be
stated for every identity, and instantiate it with `CRANE_ID` for the
globals `tCmd`, `tResp`, `tLwt`. -/

/-- `setupTopics`: builds the command, response and last-will topic strings
from an identity, exactly as the source concatenates them. -/
def setupTopics (id : String) : String × String × String :=
  let base : String := "crane/" ++ id
  (base ++ "/cmd", base ++ "/resp", base ++ "/lwt")

def tCmd : String := (setupTopics CRANE_ID).1

def tResp : String := (setupTopics CRANE_ID).2.1

def tLwt : String := (setupTopics CRANE_ID).2.2

/-! ### The publish wrapper (src/main.cpp lines 39-41)

`publish(topic, payload, retain, qos)` forwards only `(topic, payload,
retain)` to `PubSubClient::publish`; the `qos` parameter is discarded. -/

/-- A broker-level publish request as issued by `PubSubClient::publish`:
topic, payload and retain flag only (the library publishes at QoS 0). -/
structure BrokerPub where
  topic : String
  payload : String
  retain : Bool
deriving DecidableEq

/-- The `publish` wrapper: the fourth (`qos`) argument is dropped. -/
def publish (topic : String) (payload : String) (retain : Bool)
    (_qos : Nat) : BrokerPub :=
  ⟨topic, payload, retain⟩

/-! ### MQTT message handler (onMqtt, src/main.cpp lines 68-81)

The handler's only side effect is writing bytes to the UART; we return the
written byte list. -/

/-- `onMqtt`: UART bytes written for an inbound message on `topic` carrying
`payload`. Payload bytes are forwarded verbatim; then a newline is appended
when the payload is empty or its last byte is not a newline. Messages on
topics other than `tCmd` produce no write. -/
def onMqtt (topic : String) (payload : List Nat) : List Nat :=
  if topic = tCmd then
    payload ++
      (if payload.length = 0 ∨ payload.getD (payload.length - 1) 0 ≠ 10 then
        [10]
      else [])
  else []

/-! ### MQTT connection supervisor (ensureMqtt, src/main.cpp lines 89-111) -/

/-- Observable actions of `ensureMqtt` against the MQTT client. -/
inductive MAction where
  | setServer (host : String) (port : Nat)
  | setCallback
  | connect (clientId : String) (willTopic : String) (willQos : Nat)
      (willRetain : Bool) (willMsg : String)
  | pub (p : BrokerPub)
  | sub (topic : String) (qos : Nat)
deriving DecidableEq

/-- The last-will payload string built in `ensureMqtt`. -/
def lwtMsg : String := "\x7b\"online\":false,\"id\":\"" ++ CRANE_ID ++ "\"\x7d"

/-- The online-presence payload string published after a successful connect. -/
def onlineMsg : String := "\x7b\"online\":true,\"id\":\"" ++ CRANE_ID ++ "\"\x7d"

/-- `ensureMqtt`: action trace, given whether the client is already
connected, whether the connect attempt succeeds, and the client identifier
(the source derives it from `CRANE_ID` and the chip id). -/
def ensureMqtt (connected : Bool) (connectOk : Bool) (clientId : String) :
    List MAction :=
  if connected then []
  else
    MAction.setServer MQTT_HOST MQTT_PORT ::
    MAction.setCallback ::
    MAction.connect clientId tLwt 1 true lwtMsg ::
    (if connectOk then
      [MAction.pub (publish tLwt onlineMsg true 1), MAction.sub tCmd 1]
    else [])

/-! ### WiFi connection supervisor (ensureWifi, src/main.cpp lines 48-60)

The wait loop polls `WiFi.status()` every 300 ms and breaks once more than
20000 ms have elapsed since the attempt began. We model elapsed time in
milliseconds, with `status t` the link state `t` ms after `WiFi.begin`,
and return the elapsed time at which the loop exits. -/

/-- The polling wait loop of `ensureWifi`: from elapsed time `t`, return
the elapsed time at which the loop exits. Each iteration delays 300 ms and
breaks once the elapsed time exceeds 20000 ms. -/
def wifiLoop (status : Nat → Bool) (t : Nat) : Nat :=
  if status t then t
  else if h : t + 300 > 20000 then t + 300
  else wifiLoop status (t + 300)
termination_by 20001 - t
decreasing_by
  simp_wf
  omega

/-- Observable actions of `ensureWifi` against the WiFi interface. -/
inductive WAction where
  | setModeSTA
  | begin (ssid : String) (pass : String)
deriving DecidableEq

/-- `ensureWifi`: action trace and elapsed blocking time, given whether the
link is already connected and the link status over time after the
association attempt starts. -/
def ensureWifi (connected0 : Bool) (status : Nat → Bool) :
    List WAction × Nat :=
  if connected0 then ([], 0)
  else ([WAction.setModeSTA, WAction.begin WIFI_SSID WIFI_PASS],
        wifiLoop status 0)

/-! ### The UART → MQTT line framer (loop, src/main.cpp lines 149-167)

State: the line buffer contents (a byte list of length `lineLen`).
`String(lineBuf)` reads the C string up to the first NUL byte, so the
published payload is the `takeWhile (· ≠ 0)` prefix of the buffer. -/

/-- Bytes of the payload actually published for a completed buffer:
`String(lineBuf)` stops at the first NUL byte. -/
def cstr (l : List Nat) : List Nat := l.takeWhile (fun c => c ≠ 0)

/-- One iteration of the serial drain loop on byte `c`: returns the new
buffer and the payloads published (zero or one). -/
def drainStep (buf : List Nat) (c : Nat) : List Nat × List (List Nat) :=
  if c = 13 then (buf, [])
  else if c = 10 then
    (if buf.length > 0 then ([], [cstr buf]) else (buf, []))
  else if buf.length < LINE_BUF - 1 then (buf ++ [c], []) else (buf, [])

/-- The serial drain loop over a byte sequence: final buffer and the
sequence of payloads published to the response topic, in order. -/
def drain (buf : List Nat) : List Nat → List Nat × List (List Nat)
  | [] => (buf, [])
  | c :: rest =>
    let s := drainStep buf c
    let r := drain s.1 rest
    (r.1, s.2 ++ r.2)

/-! ### Specification-side framing (spec §8, "Framing correctness")

Written from the words of the spec: the newline-delimited segments of the
input, with carriage returns removed, empty segments dropped, each
truncated to at most `LINE_BUF - 1` bytes. Only terminated segments count
as emitted lines: `splitSegs` ends with the residual unterminated segment,
which `dropLast` discards. -/

/-- Split a byte list into its newline-delimited segments; the last element
is the residual segment after the final newline (possibly empty). -/
def splitSegs : List Nat → List (List Nat)
  | [] => [[]]
  | c :: rest =>
    let r := splitSegs rest
    if c = 10 then [] :: r
    else (c :: r.headI) :: r.tail

/-- Terminated newline-delimited segments of the input after CR removal. -/
def specSegs (input : List Nat) : List (List Nat) :=
  (splitSegs (input.filter (fun c => c ≠ 13))).dropLast

/-- The lines the spec says are published: terminated segments, empty ones
dropped, each truncated to at most `LINE_BUF - 1` bytes. -/
def specLines (input : List Nat) : List (List Nat) :=
  ((specSegs input).filter (fun s => s ≠ [])).map
    (fun s => s.take (LINE_BUF - 1))

/-! ## Helper lemmas -/

/-- Unfolding equation for `drain` on a cons cell. -/
theorem drain_cons (buf : List Nat) (c : Nat) (rest : List Nat) :
    drain buf (c :: rest) =
      ((drain (drainStep buf c).1 rest).1,
        (drainStep buf c).2 ++ (drain (drainStep buf c).1 rest).2) := rfl

/-- `splitSegs` always produces at least one segment. -/
theorem splitSegs_ne_nil (l : List Nat) : splitSegs l ≠ [] := by
  cases l with
  | nil => simp [splitSegs]
  | cons c rest => by_cases h : c = 10 <;> simp [splitSegs, h]

/-- A newline-free list is a single (unterminated) segment. -/
theorem splitSegs_no_nl (σ : List Nat) (h : ∀ c ∈ σ, c ≠ 10) :
    splitSegs σ = [σ] := by
  induction σ with
  | nil => rfl
  | cons c rest ih =>
    have hc : c ≠ 10 := h c (List.mem_cons_self _ _)
    have hr : splitSegs rest = [rest] :=
      ih (fun x hx => h x (List.mem_cons_of_mem _ hx))
    simp [splitSegs, hc, hr]

/-- Splitting after a newline-free prefix followed by a newline peels off
the prefix as one terminated segment. -/
theorem splitSegs_append_nl (σ rest : List Nat) (h : ∀ c ∈ σ, c ≠ 10) :
    splitSegs (σ ++ 10 :: rest) = σ :: splitSegs rest := by
  induction σ with
  | nil => simp [splitSegs]
  | cons c σ' ih =>
    have hc : c ≠ 10 := h c (List.mem_cons_self _ _)
    have hr := ih (fun x hx => h x (List.mem_cons_of_mem _ hx))
    simp [splitSegs, hc, hr]

/-- `dropLast` distributes over a cons with a non-empty tail. -/
theorem dropLast_cons_ne (a : List Nat) (l : List (List Nat)) (h : l ≠ []) :
    (a :: l).dropLast = a :: l.dropLast := by
  cases l with
  | nil => exact absurd rfl h
  | cons b t => rfl

/-- The C-string view of a buffer stops exactly at the first NUL byte. -/
theorem cstr_append_nul (p s : List Nat) (hp : ∀ c ∈ p, c ≠ 0) :
    cstr (p ++ 0 :: s) = p := by
  induction p with
  | nil => simp [cstr]
  | cons a p' ih =>
    have ha : a ≠ 0 := hp a (List.mem_cons_self _ _)
    have := ih (fun x hx => hp x (List.mem_cons_of_mem _ hx))
    simp only [cstr] at this ⊢
    simp only [decide_not] at this
    simp [List.takeWhile_cons, ha, this]

/-- Carriage returns do not affect the drain loop at all. -/
theorem drain_filter_cr : ∀ (input buf : List Nat),
    drain buf input = drain buf (input.filter (fun c => c ≠ 13)) := by
  intro input
  induction input with
  | nil => intro buf; rfl
  | cons c rest ih =>
    intro buf
    by_cases hc : c = 13
    · subst hc
      have hstep : drainStep buf 13 = (buf, []) := by
        unfold drainStep
        rw [if_pos rfl]
      rw [drain_cons, hstep]
      simp only [List.nil_append]
      have hfil : (13 :: rest).filter (fun x => x ≠ 13) =
          rest.filter (fun x => x ≠ 13) := by simp
      rw [hfil]
      exact ih buf
    · have hfil : (c :: rest).filter (fun x => x ≠ 13) =
          c :: rest.filter (fun x => x ≠ 13) := by simp [hc]
      rw [drain_cons, hfil, drain_cons, ih (drainStep buf c).1]

/-- A step on an ordinary byte keeps the buffer equal to the truncated
true segment: appending `c` to the buffer matches truncating `σ ++ [c]`. -/
theorem drainStep_append (σ : List Nat) (c : Nat) (h13 : c ≠ 13)
    (h10 : c ≠ 10) :
    drainStep (σ.take (LINE_BUF - 1)) c =
      ((σ ++ [c]).take (LINE_BUF - 1), []) := by
  unfold drainStep
  rw [if_neg h13, if_neg h10]
  by_cases hlen : σ.length < LINE_BUF - 1
  · have htk : σ.take (LINE_BUF - 1) = σ :=
      List.take_of_length_le (le_of_lt hlen)
    have htk2 : (σ ++ [c]).take (LINE_BUF - 1) = σ ++ [c] := by
      refine List.take_of_length_le ?_
      rw [List.length_append]
      simp only [List.length_singleton]
      omega
    rw [htk, htk2, if_pos hlen]
  · have hge : LINE_BUF - 1 ≤ σ.length := le_of_not_lt hlen
    have hlen2 : (σ.take (LINE_BUF - 1)).length = LINE_BUF - 1 := by
      rw [List.length_take]
      omega
    rw [if_neg (by rw [hlen2]; exact lt_irrefl _),
      List.take_append_of_le_length hge]

/-- Master framing lemma: over CR-free input, from a buffer holding the
truncation of a newline-free segment prefix `σ`, the drain loop publishes
exactly the spec-side segments of `σ ++ input`, truncated and read as C
strings. -/
theorem drain_no_cr_spec : ∀ (input : List Nat), (∀ c ∈ input, c ≠ 13) →
    ∀ (σ : List Nat), (∀ c ∈ σ, c ≠ 10) →
    (drain (σ.take (LINE_BUF - 1)) input).2 =
      ((splitSegs (σ ++ input)).dropLast.filter (fun s => s ≠ [])).map
        (fun s => cstr (s.take (LINE_BUF - 1))) := by
  intro input
  induction input with
  | nil =>
    intro _ σ hσ
    rw [List.append_nil, splitSegs_no_nl σ hσ]
    simp [drain]
  | cons c rest ih =>
    intro hin σ hσ
    have hc13 : c ≠ 13 := hin c (List.mem_cons_self _ _)
    have hrest : ∀ x ∈ rest, x ≠ 13 :=
      fun x hx => hin x (List.mem_cons_of_mem _ hx)
    by_cases hc10 : c = 10
    · subst hc10
      rw [splitSegs_append_nl σ rest hσ,
        dropLast_cons_ne _ _ (splitSegs_ne_nil rest)]
      by_cases hσe : σ = []
      · subst hσe
        have hstep : drainStep (([] : List Nat).take (LINE_BUF - 1)) 10 =
            ([], []) := by decide
        rw [drain_cons, hstep]
        simp only [List.nil_append, List.dropLast_nil]
        have := ih hrest [] (by simp)
        rw [show (([] : List Nat).take (LINE_BUF - 1)) = [] from rfl] at this
        rw [this]
        simp
      · have hpos : 0 < (σ.take (LINE_BUF - 1)).length := by
          rw [List.length_take]
          have : 0 < σ.length := List.length_pos.mpr hσe
          have h255 : 0 < LINE_BUF - 1 := by decide
          omega
        have hstep : drainStep (σ.take (LINE_BUF - 1)) 10 =
            ([], [cstr (σ.take (LINE_BUF - 1))]) := by
          unfold drainStep
          rw [if_neg (by decide : (10 : Nat) ≠ 13), if_pos rfl, if_pos hpos]
        rw [drain_cons, hstep]
        have := ih hrest [] (by simp)
        rw [show (([] : List Nat).take (LINE_BUF - 1)) = [] from rfl] at this
        simp only [List.nil_append] at this ⊢
        rw [this]
        rw [List.filter_cons_of_pos (by simpa using hσe)]
        simp
    · have hσc : ∀ x ∈ σ ++ [c], x ≠ 10 := by
        intro x hx
        rcases List.mem_append.mp hx with h | h
        · exact hσ x h
        · rw [List.mem_singleton.mp h]
          exact hc10
      rw [drain_cons, drainStep_append σ c hc13 hc10]
      simp only [List.nil_append]
      have := ih hrest (σ ++ [c]) hσc
      rw [this, List.append_assoc]
      simp

/-- Appending to a fixed string on the left is injective. -/
theorem string_append_right_inj (s t u : String) (h : s ++ t = s ++ u) :
    t = u := by
  have hd : (s ++ t).data = (s ++ u).data := congrArg String.data h
  rw [String.data_append, String.data_append] at hd
  exact String.ext (List.append_cancel_left hd)

/-- `drainStep` never grows the buffer beyond `LINE_BUF - 1` bytes. -/
theorem drainStep_length (buf : List Nat) (c : Nat)
    (h : buf.length ≤ LINE_BUF - 1) :
    (drainStep buf c).1.length ≤ LINE_BUF - 1 := by
  unfold drainStep
  split_ifs with h1 h2 h3 h4 <;> simp_all [LINE_BUF] <;> omega

/-- The drain loop preserves the buffer-length bound. -/
theorem drain_length : ∀ (input : List Nat) (buf : List Nat),
    buf.length ≤ LINE_BUF - 1 → (drain buf input).1.length ≤ LINE_BUF - 1
  | [], _, h => h
  | c :: rest, buf, h => drain_length rest _ (drainStep_length buf c h)

/-! ## Claim theorems -/

/-- C1 counterexample: for the byte sequence 65, 0, 66, 10 the framer
publishes the single line 65 (the C-string conversion stops at the NUL
byte), while the newline-delimited segment is 65, 0, 66 — so the published
lines do not equal the spec-side segments. -/
theorem framing_claim_cex :
    (drain [] [65, 0, 66, 10]).2 ≠ specLines [65, 0, 66, 10] := by decide

/-- C1 (amended): for any byte sequence drained from the serial
peripheral, the lines published to the response topic are the
newline-terminated segments of the input with carriage returns removed and
empty segments dropped, each truncated to at most `LINE_BUF - 1 = 255`
bytes and additionally cut at its first NUL byte by the C-string
conversion at publish time. -/
theorem framing_correct (input : List Nat) :
    (drain [] input).2 = (specLines input).map cstr := by
  rw [drain_filter_cr]
  have h13 : ∀ c ∈ input.filter (fun c => c ≠ 13), c ≠ 13 := by
    intro c hc
    simpa using List.of_mem_filter hc
  have hmain := drain_no_cr_spec (input.filter (fun c => c ≠ 13)) h13 []
    (by simp)
  rw [show (([] : List Nat).take (LINE_BUF - 1)) = [] from rfl] at hmain
  rw [hmain]
  simp only [List.nil_append]
  rw [specLines, specSegs, List.map_map]
  rfl

/-- C9: when a line accumulated without overflow contains a NUL byte, the
published payload is exactly the bytes strictly before the first NUL;
everything from the NUL to the terminating newline is lost. -/
theorem nul_truncation (p s : List Nat)
    (hp : ∀ c ∈ p, c ≠ 0 ∧ c ≠ 10 ∧ c ≠ 13)
    (hs : ∀ c ∈ s, c ≠ 10 ∧ c ≠ 13)
    (hlen : p.length + 1 + s.length ≤ LINE_BUF - 1) :
    (drain [] (p ++ 0 :: s ++ [10])).2 = [p] := by
  have hq10 : ∀ c ∈ p ++ 0 :: s, c ≠ 10 := by
    intro c hc
    rcases List.mem_append.mp hc with h | h
    · exact (hp c h).2.1
    · rcases List.mem_cons.mp h with h0 | h1
      · rw [h0]; decide
      · exact (hs c h1).1
  have h13 : ∀ c ∈ p ++ 0 :: s ++ [10], c ≠ 13 := by
    intro c hc
    rcases List.mem_append.mp hc with h | h
    · rcases List.mem_append.mp h with h1 | h2
      · exact (hp c h1).2.2
      · rcases List.mem_cons.mp h2 with h0 | h3
        · rw [h0]; decide
        · exact (hs c h3).2
    · rw [List.mem_singleton.mp h]; decide
  have hmain := drain_no_cr_spec (p ++ 0 :: s ++ [10]) h13 [] (by simp)
  rw [show (([] : List Nat).take (LINE_BUF - 1)) = [] from rfl] at hmain
  rw [hmain]
  simp only [List.nil_append]
  rw [splitSegs_append_nl (p ++ 0 :: s) [] hq10]
  have hne : p ++ 0 :: s ≠ [] := by simp
  rw [show splitSegs [] = [[]] from rfl]
  rw [dropLast_cons_ne _ [[]] (by simp), show ([[]] : List (List Nat)).dropLast = [] from rfl]
  rw [List.filter_cons_of_pos (by simpa using hne), List.filter_nil]
  have htake : (p ++ 0 :: s).take (LINE_BUF - 1) = p ++ 0 :: s := by
    refine List.take_of_length_le ?_
    rw [List.length_append, List.length_cons]
    omega
  rw [List.map_cons, List.map_nil, htake,
    cstr_append_nul p s (fun c hc => (hp c hc).1)]

/-- Witness for C9: the line 71, 49, 0, 88 terminated by a newline
publishes only 71, 49. -/
theorem nul_truncation_witness :
    (drain [] ([71, 49] ++ 0 :: [88] ++ [10])).2 = [[71, 49]] :=
  nul_truncation [71, 49] [88] (by decide) (by decide) (by decide)

/-- C10: the publish wrapper discards its delivery-assurance argument: for
every topic, payload and retain flag, any two values of the `qos`
parameter yield the identical broker publish request. -/
theorem publish_qos_independent (t p : String) (r : Bool) (q1 q2 : Nat) :
    publish t p r q1 = publish t p r q2 := rfl

/-- C5: when the network link is already connected, `ensureWifi` performs
no action and blocks for no time; when the broker session is already
connected, `ensureMqtt` performs no action — no association attempt, no
connect request, no publish, no subscribe. -/
theorem ensure_idempotent :
    (∀ status : Nat → Bool, ensureWifi true status = ([], 0)) ∧
    (∀ (connectOk : Bool) (cid : String), ensureMqtt true connectOk cid = []) :=
  ⟨fun _ => rfl, fun _ _ => rfl⟩

/-- C6: an inbound message whose topic is not exactly the command topic
produces no serial write at all, regardless of the payload. -/
theorem onMqtt_other_topic (topic : String) (payload : List Nat)
    (h : topic ≠ tCmd) : onMqtt topic payload = [] := by
  simp [onMqtt, h]

/-- Witness for C6 at the response topic with payload "G28". -/
theorem onMqtt_other_topic_witness : onMqtt tResp [71, 50, 56] = [] :=
  onMqtt_other_topic tResp [71, 50, 56] (by decide)

/-- C2: for every payload delivered on the command topic, the bytes
written to the serial peripheral are the payload followed by exactly one
newline when the payload is empty or does not end in a newline, and the
payload unchanged otherwise. -/
theorem onMqtt_cmd_terminated (P : List Nat) :
    onMqtt tCmd P =
      if P = [] ∨ P.getLast? ≠ some 10 then P ++ [10] else P := by
  rcases List.eq_nil_or_concat P with rfl | ⟨q, a, rfl⟩
  · simp [onMqtt]
  · have hlen : (q ++ [a]).length - 1 = q.length := by simp
    have hgd : (q ++ [a]).getD ((q ++ [a]).length - 1) 0 = a := by
      rw [hlen, List.getD_append_right q [a] 0 q.length (le_refl _)]
      simp
    have hgl : (q ++ [a]).getLast? = some a := List.getLast?_concat q
    by_cases ha : a = 10 <;> simp [onMqtt, hgd, hgl, ha]

/-- C3: for every non-empty identity, the derived topic set is exactly
the command, response and last-will topics under the prefix built from the
identity; the three topics extend that common prefix and are pairwise
distinct; the derivation is a pure function of the identity. -/
theorem setupTopics_spec (id : String) (_h : id ≠ "") :
    setupTopics id =
      ("crane/" ++ id ++ "/cmd", "crane/" ++ id ++ "/resp",
        "crane/" ++ id ++ "/lwt") ∧
    (∃ s1 s2 s3 : String,
      (setupTopics id).1 = ("crane/" ++ id) ++ s1 ∧
      (setupTopics id).2.1 = ("crane/" ++ id) ++ s2 ∧
      (setupTopics id).2.2 = ("crane/" ++ id) ++ s3) ∧
    (setupTopics id).1 ≠ (setupTopics id).2.1 ∧
    (setupTopics id).1 ≠ (setupTopics id).2.2 ∧
    (setupTopics id).2.1 ≠ (setupTopics id).2.2 := by
  refine ⟨rfl, ⟨"/cmd", "/resp", "/lwt", rfl, rfl, rfl⟩, ?_, ?_, ?_⟩
  · intro hEq
    have := string_append_right_inj ("crane/" ++ id) "/cmd" "/resp" hEq
    exact absurd this (by decide)
  · intro hEq
    have := string_append_right_inj ("crane/" ++ id) "/cmd" "/lwt" hEq
    exact absurd this (by decide)
  · intro hEq
    have := string_append_right_inj ("crane/" ++ id) "/resp" "/lwt" hEq
    exact absurd this (by decide)

/-- Witness for C3 at the configured identity. -/
theorem setupTopics_spec_witness :
    setupTopics "crane-1" =
      ("crane/" ++ "crane-1" ++ "/cmd", "crane/" ++ "crane-1" ++ "/resp",
        "crane/" ++ "crane-1" ++ "/lwt") ∧
    (∃ s1 s2 s3 : String,
      (setupTopics "crane-1").1 = ("crane/" ++ "crane-1") ++ s1 ∧
      (setupTopics "crane-1").2.1 = ("crane/" ++ "crane-1") ++ s2 ∧
      (setupTopics "crane-1").2.2 = ("crane/" ++ "crane-1") ++ s3) ∧
    (setupTopics "crane-1").1 ≠ (setupTopics "crane-1").2.1 ∧
    (setupTopics "crane-1").1 ≠ (setupTopics "crane-1").2.2 ∧
    (setupTopics "crane-1").2.1 ≠ (setupTopics "crane-1").2.2 :=
  setupTopics_spec "crane-1" (by decide)

/-- C4: from a disconnected broker session with a successful connect, the
trace of `ensureMqtt` registers a retained last will with payload
online:false on the presence topic at QoS 1, then publishes the retained
online:true presence record, then subscribes to the command topic at the
same QoS 1. -/
theorem ensureMqtt_connect_success (cid : String) :
    ensureMqtt false true cid =
      [MAction.setServer MQTT_HOST MQTT_PORT,
       MAction.setCallback,
       MAction.connect cid tLwt 1 true lwtMsg,
       MAction.pub ⟨tLwt, onlineMsg, true⟩,
       MAction.sub tCmd 1] ∧
    tLwt = "crane/crane-1/lwt" ∧
    tCmd = "crane/crane-1/cmd" ∧
    lwtMsg = "\x7b\"online\":false,\"id\":\"crane-1\"\x7d" ∧
    onlineMsg = "\x7b\"online\":true,\"id\":\"crane-1\"\x7d" ∧
    MQTT_HOST = "192.168.1.2" ∧ MQTT_PORT = 1883 :=
  ⟨rfl, by decide, by decide, by decide, by decide, rfl, rfl⟩

/-- C7: starting from an empty buffer, after every processed byte the fill
length stays at most `LINE_BUF - 1 = 255`; a single step preserves that
bound from any buffer satisfying it; and a non-newline, non-CR byte
arriving when the buffer holds exactly 255 bytes is silently dropped,
leaving buffer and output unchanged. -/
theorem lineBuf_bound :
    (∀ input : List Nat, (drain [] input).1.length ≤ LINE_BUF - 1) ∧
    (∀ (buf : List Nat) (c : Nat), buf.length ≤ LINE_BUF - 1 →
      (drainStep buf c).1.length ≤ LINE_BUF - 1) ∧
    (∀ (buf : List Nat) (c : Nat), c ≠ 10 → c ≠ 13 →
      buf.length = LINE_BUF - 1 → drainStep buf c = (buf, [])) := by
  refine ⟨fun input => drain_length input [] (by simp),
    fun buf c h => drainStep_length buf c h, fun buf c h10 h13 hfull => ?_⟩
  have hcap : ¬ (buf.length < LINE_BUF - 1) := by
    rw [hfull]
    exact lt_irrefl _
  unfold drainStep
  rw [if_neg h13, if_neg h10, if_neg hcap]

/-- Witness for C7: a byte arriving at a full buffer is dropped. -/
theorem lineBuf_bound_witness :
    drainStep (List.replicate 255 65) 66 = (List.replicate 255 65, []) :=
  lineBuf_bound.2.2 (List.replicate 255 65) 66 (by decide) (by decide)
    (by rw [List.length_replicate]; rfl)

/-! ## The WiFi wait loop -/

/-- If the link reports connected, the wait loop exits at once. -/
theorem wifiLoop_connected (status : Nat → Bool) (t : Nat)
    (h : status t = true) : wifiLoop status t = t := by
  rw [wifiLoop]
  simp [h]

/-- If the link is down and the guard time has passed, the loop breaks
after one more 300 ms delay. -/
theorem wifiLoop_timeout_exit (status : Nat → Bool) (t : Nat)
    (h : status t = false) (h2 : t + 300 > 20000) :
    wifiLoop status t = t + 300 := by
  rw [wifiLoop]
  simp [h, h2]

/-- If the link is down and the guard time has not passed, the loop delays
300 ms and polls again. -/
theorem wifiLoop_again (status : Nat → Bool) (t : Nat)
    (h : status t = false) (h2 : ¬ (t + 300 > 20000)) :
    wifiLoop status t = wifiLoop status (t + 300) := by
  conv_lhs => rw [wifiLoop]
  simp [h, h2]

/-- If the link never comes up, the loop exits exactly at 20100 ms. -/
theorem wifiLoop_all_false (status : Nat → Bool) :
    ∀ (d k : Nat), k + d = 66 → (∀ j, j ≤ 66 → status (300 * j) = false) →
    wifiLoop status (300 * k) = 20100
  | 0, k, hk, hst => by
    have hk66 : k = 66 := by omega
    subst hk66
    rw [wifiLoop_timeout_exit status (300 * 66) (hst 66 (by omega))
      (by norm_num)]
  | d + 1, k, hk, hst => by
    have h1 : status (300 * k) = false := hst k (by omega)
    have h2 : ¬ (300 * k + 300 > 20000) := by omega
    rw [wifiLoop_again status (300 * k) h1 h2,
      show 300 * k + 300 = 300 * (k + 1) by ring]
    exact wifiLoop_all_false status d (k + 1) (by omega) hst

/-- The loop returns at the first poll at which the link reports
connected. -/
theorem wifiLoop_first_true (status : Nat → Bool) :
    ∀ (d k m : Nat), k + d = 66 → k ≤ m → m ≤ 66 →
    status (300 * m) = true →
    (∀ j, k ≤ j → j < m → status (300 * j) = false) →
    wifiLoop status (300 * k) = 300 * m
  | 0, k, m, hk, hkm, hm, hst, _ => by
    have hk66 : k = 66 := by omega
    have hm66 : m = 66 := by omega
    subst hk66
    subst hm66
    exact wifiLoop_connected status (300 * 66) hst
  | d + 1, k, m, hk, hkm, hm, hst, hprev => by
    by_cases hmk : m = k
    · subst hmk
      exact wifiLoop_connected status (300 * m) hst
    · have hlt : k < m := by omega
      have h1 : status (300 * k) = false := hprev k le_rfl hlt
      have h2 : ¬ (300 * k + 300 > 20000) := by omega
      rw [wifiLoop_again status (300 * k) h1 h2,
        show 300 * k + 300 = 300 * (k + 1) by ring]
      exact wifiLoop_first_true status d (k + 1) m (by omega) (by omega) hm
        hst (fun j hj hjm => hprev j (by omega) hjm)

/-- The loop never runs past 20100 ms of elapsed time. -/
theorem wifiLoop_le (status : Nat → Bool) :
    ∀ (d k : Nat), k + d = 66 → wifiLoop status (300 * k) ≤ 20100
  | 0, k, hk => by
    have hk66 : k = 66 := by omega
    subst hk66
    cases hb : status (300 * 66) with
    | false =>
      rw [wifiLoop_timeout_exit status (300 * 66) hb (by norm_num)]
    | true =>
      rw [wifiLoop_connected status (300 * 66) hb]
      norm_num
  | d + 1, k, hk => by
    cases hb : status (300 * k) with
    | false =>
      have h2 : ¬ (300 * k + 300 > 20000) := by omega
      rw [wifiLoop_again status (300 * k) hb h2,
        show 300 * k + 300 = 300 * (k + 1) by ring]
      exact wifiLoop_le status d (k + 1) (by omega)
    | true =>
      rw [wifiLoop_connected status (300 * k) hb]
      omega

/-- The loop always exits at a poll instant: a multiple of 300 ms. -/
theorem wifiLoop_mul (status : Nat → Bool) :
    ∀ (d k : Nat), k + d = 66 → ∃ n, wifiLoop status (300 * k) = 300 * n
  | 0, k, hk => by
    have hk66 : k = 66 := by omega
    subst hk66
    cases hb : status (300 * 66) with
    | false =>
      exact ⟨67, by rw [wifiLoop_timeout_exit status (300 * 66) hb
        (by norm_num)]⟩
    | true => exact ⟨66, wifiLoop_connected status (300 * 66) hb⟩
  | d + 1, k, hk => by
    cases hb : status (300 * k) with
    | false =>
      have h2 : ¬ (300 * k + 300 > 20000) := by omega
      rw [wifiLoop_again status (300 * k) hb h2,
        show 300 * k + 300 = 300 * (k + 1) by ring]
      exact wifiLoop_mul status d (k + 1) (by omega)
    | true => exact ⟨k, wifiLoop_connected status (300 * k) hb⟩

/-- C8: when the link is not connected, `ensureWifi` polls at the fixed
300 ms interval and always terminates: the blocking time never exceeds
20100 ms, it exits at a poll instant, it returns as soon as the link first
reports connected, and if the link never comes up it returns, without
having connected and without error, once 20100 ms (≈ 20 s) have elapsed. -/
theorem ensureWifi_bounded_wait (status : Nat → Bool) :
    (ensureWifi false status).2 ≤ 20100 ∧
    (∃ n, (ensureWifi false status).2 = 300 * n) ∧
    ((∀ t, status t = false) → (ensureWifi false status).2 = 20100) ∧
    (∀ m, m ≤ 67 → status (300 * m) = true →
      (∀ j, j < m → status (300 * j) = false) →
      (ensureWifi false status).2 = 300 * m) := by
  have he : (ensureWifi false status).2 = wifiLoop status (300 * 0) := rfl
  rw [he]
  refine ⟨wifiLoop_le status 66 0 rfl, wifiLoop_mul status 66 0 rfl,
    fun hall => wifiLoop_all_false status 66 0 rfl (fun j _ => hall _),
    fun m hm hst hprev => ?_⟩
  by_cases hm66 : m ≤ 66
  · exact wifiLoop_first_true status 66 0 m rfl (Nat.zero_le m) hm66 hst
      (fun j _ hj => hprev j hj)
  · have hm67 : m = 67 := by omega
    subst hm67
    rw [wifiLoop_all_false status 66 0 rfl (fun j hj => hprev j (by omega))]

/-- Witness for C8: with a link that never comes up the wait lasts
20100 ms; with a link that is up at the first poll it lasts 0 ms. -/
theorem ensureWifi_bounded_wait_witness :
    (ensureWifi false (fun _ => false)).2 = 20100 ∧
    (ensureWifi false (fun _ => true)).2 = 300 * 0 :=
  ⟨(ensureWifi_bounded_wait (fun _ => false)).2.2.1 (fun _ => rfl),
   (ensureWifi_bounded_wait (fun _ => true)).2.2.2 0 (by decide) rfl
     (fun j hj => absurd hj (Nat.not_lt_zero j))⟩

end Crane
